import Mathlib

/-!
Shallow embedding of the AlmeriaVB teaching notebooks, restricted to the parts
the verified claims are about:

* `src/Python/students_M_and_I_projections.ipynb`: the density evaluators
  `p_distribution_pdf` and `q_distribution_pdf`, the numerical KL objective
  `calculate_KL_for_given_parameters`, the driver `optimize_parameters`, and
  the projection wrappers.
* the gradient-ascent notebook (`data_generator`, `calculate_gradient`).

The notebooks are numeric Python over numpy/scipy; the embedding works over the
real numbers.  External library functions (scipy `norm.pdf`, `np.log`) are
modelled by the mathematical functions they compute; the external optimizer
`scipy.optimize.minimize` is kept abstract, as a function argument.
-/

namespace AlmeriaVB

/-- The mathematical Gaussian density computed by the external `scipy.stats.norm.pdf`
for a positive scale: `normPdf x loc scale = exp(-(x-loc)^2 / (2 scale^2)) / (scale sqrt(2 pi))`. -/
noncomputable def normPdf (x loc scale : ℝ) : ℝ :=
  (1 / (scale * Real.sqrt (2 * Real.pi))) * Real.exp (-((x - loc) ^ 2 / (2 * scale ^ 2)))

/-- Python `p_distribution_pdf(x, **kwargs)` from the projections notebook: the fixed
two-component Gaussian mixture with `w = .1`, `mean1 = 1`, `stddev1 = .5`,
`mean2 = 10`, `stddev2 = 3`.  The keyword arguments are bound but never used;
they are modelled as an (ignored) association list. -/
noncomputable def p_distribution_pdf (x : ℝ) (kwargs : List (String × ℝ)) : ℝ :=
  0.1 * normPdf x 1 0.5 + (1 - 0.1) * normPdf x 10 3

/-- Python `q_distribution_pdf(x, **kwargs)` from the projections notebook: reads the
required `loc` and `scale` keyword arguments and returns
`np.maximum(1e-6, norm.pdf(x, loc, scale))`. -/
noncomputable def q_distribution_pdf (x loc scale : ℝ) : ℝ :=
  max 1e-6 (normPdf x loc scale)

/-- The fixed mixture with the common `(x, loc, scale)` calling convention used
inside the KL objective (the parameters are passed and ignored). -/
noncomputable def p_density (x loc scale : ℝ) : ℝ :=
  p_distribution_pdf x [("loc", loc), ("scale", scale)]

/-- The parametric Gaussian with the common `(x, loc, scale)` calling convention. -/
noncomputable def q_density (x loc scale : ℝ) : ℝ :=
  q_distribution_pdf x loc scale

/-- Numpy `np.arange(start, stop, step)` for a positive step: the `⌈(stop - start)/step⌉`
points `start + k * step`, `k = 0, 1, ...`. -/
noncomputable def arange (start stop step : ℝ) : List ℝ :=
  (List.range ⌈(stop - start) / step⌉₊).map (fun k : ℕ => start + (k : ℝ) * step)

/-- Modelled from the spec: the summand inside `np.sum` in the body of
`calculate_KL_for_given_parameters` is left as the fill-in placeholder `??????`
in the source; per the spec it is `f(x_i) * log(f(x_i) / g(x_i))`, with the
current `(mu, sigma)` parameters passed to both `f` and `g`.  The grid
`x_val = np.arange(-25, +25, eps)` and the outer factor `eps` are from the
source.  `parameters.1` and `parameters.2` model `parameters[0]` (mu) and
`parameters[1]` (sigma). -/
noncomputable def calculate_KL_for_given_parameters
    (f g : ℝ → ℝ → ℝ → ℝ) (eps : ℝ) (parameters : ℝ × ℝ) : ℝ :=
  eps * ((arange (-25) 25 eps).map (fun x =>
      f x parameters.1 parameters.2 *
        Real.log (f x parameters.1 parameters.2 / g x parameters.1 parameters.2))).sum

/-- The slot of the result object of the external `scipy.optimize.minimize` that
the notebook reads (`optimum` indexed at the string `x`). -/
structure OptimizeResult where
  x : ℝ × ℝ

/-- Box bounds in the shape scipy receives them: an optional lower and an optional
upper bound per coordinate (`None` = unconstrained). -/
def Bounds2 : Type := (Option ℝ × Option ℝ) × (Option ℝ × Option ℝ)

/-- A point satisfies a bounds specification when every present lower bound is at
most the coordinate and every present upper bound is at least it. -/
def inBounds (b : Bounds2) (p : ℝ × ℝ) : Prop :=
  (∀ lo ∈ b.1.1, lo ≤ p.1) ∧ (∀ hi ∈ b.1.2, p.1 ≤ hi) ∧
  (∀ lo ∈ b.2.1, lo ≤ p.2) ∧ (∀ hi ∈ b.2.2, p.2 ≤ hi)

/-- The bounds literal passed to `minimize` in the source:
`bounds=((None, None), (1E-2, None))`. -/
def kl_bounds : Bounds2 := ((none, none), (some 1e-2, none))

/-- The starting-point literal passed to `minimize` in the source: `x0=[0, 5]`. -/
def kl_x0 : ℝ × ℝ := (0, 5)

/-- Python `optimize_parameters(f, g, eps)` from the projections notebook.  The external
`scipy.optimize.minimize` is abstract: it is passed in as a function taking the
objective, the bounds and the starting point, and the notebook returns the
`x`-slot of the single result it produces. -/
noncomputable def optimize_parameters
    (minimize : ((ℝ × ℝ) → ℝ) → Bounds2 → (ℝ × ℝ) → OptimizeResult)
    (f g : ℝ → ℝ → ℝ → ℝ) (eps : ℝ) : ℝ × ℝ :=
  (minimize (calculate_KL_for_given_parameters f g eps) kl_bounds kl_x0).x

/-- Modelled from the spec: the `f=?????` and `g=?????` placeholders in
`generate_moment_projection`; the spec sets f = target mixture and
g = approximating Gaussian, minimizing KL(p‖q).  The default step size in the
source is `eps=1E-2`. -/
noncomputable def generate_moment_projection
    (minimize : ((ℝ × ℝ) → ℝ) → Bounds2 → (ℝ × ℝ) → OptimizeResult)
    (eps : ℝ := 1e-2) : ℝ × ℝ :=
  optimize_parameters minimize p_density q_density eps

/-- Modelled from the spec: the `f=?????` and `g=?????` placeholders in
`generate_information_projection`; the spec sets f = approximating Gaussian and
g = target mixture, minimizing KL(q‖p). -/
noncomputable def generate_information_projection
    (minimize : ((ℝ × ℝ) → ℝ) → Bounds2 → (ℝ × ℝ) → OptimizeResult)
    (eps : ℝ := 1e-2) : ℝ × ℝ :=
  optimize_parameters minimize q_density p_density eps

/-- A constant, strictly positive density evaluator used to probe the divergence
estimator. -/
def probe_f : ℝ → ℝ → ℝ → ℝ := fun _ _ _ => 1

/-- A strictly positive density evaluator whose log-ratio against `probe_f` is the
indicator of the single point `-23`. -/
noncomputable def probe_g : ℝ → ℝ → ℝ → ℝ :=
  fun x _ _ => Real.exp (-(if x = -23 then 1 else 0))

/-- One step of `data_generator(array, batch_size)` from the gradient-ascent
notebook, as a function of the saved pointer `start`: with `stop = start +
batch_size` and `diff = stop - len(array)`, if `diff ≤ 0` the yielded batch is
the slice `array[start:stop]` and the new pointer is `start + batch_size`;
otherwise the batch is `array[start:] ++ array[:diff]` and the new pointer is
`diff`.  Python slices clamp at the ends, which `List.drop`/`List.take` match. -/
def generator_step {α : Type} (array : List α) (batch_size start : ℕ) :
    List α × ℕ :=
  if start + batch_size ≤ array.length then
    ((array.drop start).take batch_size, start + batch_size)
  else
    (array.drop start ++ array.take (start + batch_size - array.length),
      start + batch_size - array.length)

/-- The pointer `start` of `data_generator` after `n` yields (initially `0`). -/
def generator_state {α : Type} (array : List α) (batch_size : ℕ) : ℕ → ℕ
  | 0 => 0
  | n + 1 => (generator_step array batch_size (generator_state array batch_size n)).2

/-- The `n`-th batch (counting from `0`) yielded by `data_generator`. -/
def generator_batch {α : Type} (array : List α) (batch_size n : ℕ) : List α :=
  (generator_step array batch_size (generator_state array batch_size n)).1

/-- Python `calculate_gradient(N, _data, _mu, _tau)` from the gradient-ascent notebook.
Returns the pair `(natural_gradient, euclidean_gradient)`, each a 2-vector
modelled as a pair (mu component first).  The local values `dmu` and `dtau`
model the source variables named after the two partial derivatives: `dmu` is
`_tau * np.sum(_data - _mu)` and `dtau` is
`.5 * len(_data) / _tau - .5 * np.sum(np.square(_data - _mu))`; the Euclidean
gradient is `N / len(_data)` times `[dmu, dtau]`, and the natural gradient
rescales the two components by the inverse Fisher matrix
`diag(1/tau, 2 * tau^2)`: it is `[dmu / _tau, dtau * 2 * _tau * _tau]`. -/
noncomputable def calculate_gradient (N : ℝ) (data : List ℝ) (mu tau : ℝ) :
    (ℝ × ℝ) × (ℝ × ℝ) :=
  let dmu := tau * ((data.map (fun x => x - mu)).sum)
  let dtau := 0.5 * (data.length : ℝ) / tau -
    0.5 * ((data.map (fun x => (x - mu) ^ 2)).sum)
  let euclidean_gradient := (N / (data.length : ℝ) * dmu, N / (data.length : ℝ) * dtau)
  let natural_gradient := (dmu / tau, dtau * 2 * tau * tau)
  (natural_gradient, euclidean_gradient)

/-- Auxiliary bound: iterating `x + 1 ≤ exp x` gives `(1 + x)^n ≤ exp (n * x)`
for nonnegative `x`. -/
lemma one_add_pow_le_exp (x : ℝ) (hx : 0 ≤ x) (n : ℕ) :
    (1 + x) ^ n ≤ Real.exp (n * x) := by
  induction n with
  | zero => simp
  | succ n ih =>
    have h1 : (0:ℝ) ≤ (1 + x) ^ n := by positivity
    have h2 : (1 + x) ≤ Real.exp x := by
      have := Real.add_one_le_exp x
      linarith
    have h3 : (1 + x) ^ (n + 1) = (1 + x) ^ n * (1 + x) := by ring
    have h4 : (1 + x) ^ n * (1 + x) ≤ Real.exp (n * x) * Real.exp x := by
      apply mul_le_mul ih h2 (by linarith) (Real.exp_nonneg _)
    rw [h3, ← Real.exp_add] at *
    calc (1 + x) ^ n * (1 + x) ≤ Real.exp (n * x + x) := h4
    _ = Real.exp ((n + 1 : ℕ) * x) := by push_cast; ring_nf

/-- The square root of `2 * pi` is at least `2`. -/
lemma two_le_sqrt_two_pi : (2:ℝ) ≤ Real.sqrt (2 * Real.pi) := by
  have h4 : (4:ℝ) ≤ 2 * Real.pi := by
    have := Real.pi_gt_three
    linarith
  have : Real.sqrt 4 ≤ Real.sqrt (2 * Real.pi) := Real.sqrt_le_sqrt h4
  have h2 : Real.sqrt 4 = 2 := by
    rw [show (4:ℝ) = 2 ^ 2 by norm_num, Real.sqrt_sq (by norm_num)]
  linarith

lemma exp_neg_1352_le : Real.exp (-(1352:ℝ)) ≤ ((170:ℝ) ^ 8)⁻¹ := by
  have h : ((1:ℝ) + 169) ^ 8 ≤ Real.exp ((8:ℕ) * (169:ℝ)) :=
    one_add_pow_le_exp 169 (by norm_num) 8
  have h2 : ((170:ℝ)) ^ 8 ≤ Real.exp 1352 := by
    have hc : ((8:ℕ):ℝ) * (169:ℝ) = 1352 := by norm_num
    rw [hc] at h
    have : ((1:ℝ) + 169) = 170 := by norm_num
    rwa [this] at h
  rw [Real.exp_neg]
  exact inv_anti₀ (by positivity) h2

lemma exp_neg_small_le : Real.exp (-(1225/18:ℝ)) ≤ (((1369:ℝ)/144) ^ 8)⁻¹ := by
  have h : ((1:ℝ) + 1225/144) ^ 8 ≤ Real.exp ((8:ℕ) * (1225/144:ℝ)) :=
    one_add_pow_le_exp (1225/144) (by norm_num) 8
  have h2 : ((1369:ℝ)/144) ^ 8 ≤ Real.exp (1225/18) := by
    have hc : ((8:ℕ):ℝ) * (1225/144:ℝ) = 1225/18 := by norm_num
    rw [hc] at h
    have : ((1:ℝ) + 1225/144) = 1369/144 := by norm_num
    rwa [this] at h
  rw [Real.exp_neg]
  exact inv_anti₀ (by positivity) h2

/-- Claim C2 counterexample: the fixed mixture evaluator applies no floor; the entry it
returns at the point `-25` (with no keyword arguments passed) is strictly below
`1e-6`, refuting the claim that every entry of both evaluators is at least
`1e-6`. -/
theorem p_pdf_entry_below_floor : p_distribution_pdf (-25) [] < 1e-6 := by
  have hsq := two_le_sqrt_two_pi
  have hsqpos : (0:ℝ) < Real.sqrt (2 * Real.pi) := by linarith
  have hc1 : (1:ℝ) / (0.5 * Real.sqrt (2 * Real.pi)) ≤ 1 := by
    rw [div_le_one (by positivity)]
    linarith
  have hc2 : (1:ℝ) / (3 * Real.sqrt (2 * Real.pi)) ≤ 1/6 := by
    rw [div_le_div_iff₀ (by positivity) (by norm_num)]
    linarith
  have ht1 : normPdf (-25) 1 0.5 ≤ ((170:ℝ) ^ 8)⁻¹ := by
    unfold normPdf
    have harg : -((((-25:ℝ) - 1) ^ 2) / (2 * (0.5:ℝ) ^ 2)) = -(1352:ℝ) := by norm_num
    rw [harg]
    calc (1 / (0.5 * Real.sqrt (2 * Real.pi))) * Real.exp (-(1352:ℝ))
        ≤ 1 * ((170:ℝ) ^ 8)⁻¹ := by
          apply mul_le_mul hc1 exp_neg_1352_le (Real.exp_nonneg _) (by norm_num)
    _ = ((170:ℝ) ^ 8)⁻¹ := by ring
  have ht2 : normPdf (-25) 10 3 ≤ (1/6) * (((1369:ℝ)/144) ^ 8)⁻¹ := by
    unfold normPdf
    have harg : -((((-25:ℝ) - 10) ^ 2) / (2 * (3:ℝ) ^ 2)) = -(1225/18:ℝ) := by norm_num
    rw [harg]
    apply mul_le_mul hc2 exp_neg_small_le (Real.exp_nonneg _) (by norm_num)
  have hbound : p_distribution_pdf (-25) [] ≤
      0.1 * ((170:ℝ) ^ 8)⁻¹ + 0.9 * ((1/6) * (((1369:ℝ)/144) ^ 8)⁻¹) := by
    unfold p_distribution_pdf
    have h1 : (0.1:ℝ) * normPdf (-25) 1 0.5 ≤ 0.1 * ((170:ℝ) ^ 8)⁻¹ := by
      apply mul_le_mul_of_nonneg_left ht1 (by norm_num)
    have h2 : ((1:ℝ) - 0.1) * normPdf (-25) 10 3 ≤
        0.9 * ((1/6) * (((1369:ℝ)/144) ^ 8)⁻¹) := by
      have := mul_le_mul_of_nonneg_left ht2 (show (0:ℝ) ≤ 0.9 by norm_num)
      calc ((1:ℝ) - 0.1) * normPdf (-25) 10 3
          = 0.9 * normPdf (-25) 10 3 := by ring
      _ ≤ 0.9 * ((1/6) * (((1369:ℝ)/144) ^ 8)⁻¹) := this
    linarith
  have hfinal : (0.1:ℝ) * ((170:ℝ) ^ 8)⁻¹ + 0.9 * ((1/6) * (((1369:ℝ)/144) ^ 8)⁻¹)
      < 1e-6 := by norm_num
  linarith

lemma list_range_map_sum {β : Type} [AddCommMonoid β] (n : ℕ) (f : ℕ → β) :
    ((List.range n).map f).sum = ∑ i in Finset.range n, f i := by
  induction n with
  | zero => simp
  | succ n ih =>
    rw [List.range_succ, List.map_append, List.sum_append, Finset.sum_range_succ, ih]
    simp

lemma probe_summand (x mu sigma : ℝ) :
    probe_f x mu sigma * Real.log (probe_f x mu sigma / probe_g x mu sigma) =
      if x = -23 then 1 else 0 := by
  unfold probe_f probe_g
  rw [one_mul, one_div, Real.log_inv, Real.log_exp, neg_neg]

lemma ceil_div_8 : ⌈((25:ℝ) - (-25)) / 8⌉₊ = 7 := by
  rw [Nat.ceil_eq_iff (by norm_num)]
  constructor <;> norm_num

lemma ceil_div_4 : ⌈((25:ℝ) - (-25)) / 4⌉₊ = 13 := by
  rw [Nat.ceil_eq_iff (by norm_num)]
  constructor <;> norm_num

lemma ceil_div_2 : ⌈((25:ℝ) - (-25)) / 2⌉₊ = 25 := by
  rw [Nat.ceil_eq_iff (by norm_num)]
  constructor <;> norm_num

lemma probe_kl_8 : calculate_KL_for_given_parameters probe_f probe_g 8 (0, 0) = 0 := by
  unfold calculate_KL_for_given_parameters arange
  rw [ceil_div_8]
  simp only [List.range_succ, List.range_zero, List.map_append, List.map_cons,
    List.map_nil, List.sum_append, List.sum_cons, List.sum_nil, List.nil_append,
    probe_summand]
  norm_num

lemma probe_kl_4 : calculate_KL_for_given_parameters probe_f probe_g 4 (0, 0) = 0 := by
  unfold calculate_KL_for_given_parameters arange
  rw [ceil_div_4]
  simp only [List.range_succ, List.range_zero, List.map_append, List.map_cons,
    List.map_nil, List.sum_append, List.sum_cons, List.sum_nil, List.nil_append,
    probe_summand]
  norm_num

lemma probe_kl_2 : calculate_KL_for_given_parameters probe_f probe_g 2 (0, 0) = 2 := by
  unfold calculate_KL_for_given_parameters arange
  rw [ceil_div_2]
  simp only [List.range_succ, List.range_zero, List.map_append, List.map_cons,
    List.map_nil, List.sum_append, List.sum_cons, List.sum_nil, List.nil_append,
    probe_summand]
  norm_num

/-- Under the generator invariant (`start ≤ len`, `batch_size ≤ len`), one step
of the generator moves the pointer to a value that stays at most `len` and is
congruent to `start + batch_size` modulo `len`. -/
lemma generator_step_snd {α : Type} (array : List α) (bs start : ℕ)
    (hbsL : bs ≤ array.length) (hstart : start ≤ array.length) :
    (generator_step array bs start).2 ≤ array.length ∧
    (generator_step array bs start).2 % array.length = (start + bs) % array.length := by
  unfold generator_step
  by_cases hcase : start + bs ≤ array.length
  · rw [if_pos hcase]
    exact ⟨hcase, rfl⟩
  · rw [if_neg hcase]
    push_neg at hcase
    exact ⟨by omega, (Nat.mod_eq_sub_mod (by omega)).symm⟩

/-- Under the generator invariant, one step of the generator yields the
`batch_size` elements at the cyclic positions `start, start + 1, ...` of the
array. -/
lemma generator_step_fst {α : Type} (array : List α) (d : α) (bs start : ℕ)
    (hbsL : bs ≤ array.length) (hstart : start ≤ array.length) :
    (generator_step array bs start).1 =
      (List.range bs).map (fun j => array.getD ((start + j) % array.length) d) := by
  unfold generator_step
  by_cases hcase : start + bs ≤ array.length
  · rw [if_pos hcase]
    apply List.ext_getElem
    · simp only [List.length_take, List.length_drop, List.length_map, List.length_range]
      omega
    · intro i h1 h2
      have hi : i < bs := by
        simp only [List.length_take, List.length_drop] at h1
        omega
      have hilen : start + i < array.length := by omega
      rw [List.getElem_take, List.getElem_drop, List.getElem_map, List.getElem_range,
        Nat.mod_eq_of_lt hilen, List.getD_eq_getElem array d hilen]
  · rw [if_neg hcase]
    push_neg at hcase
    apply List.ext_getElem
    · simp only [List.length_append, List.length_take, List.length_drop,
        List.length_map, List.length_range, inf_eq_min]
      rw [min_eq_left (by omega)]
      omega
    · intro i h1 h2
      have hi : i < bs := by
        simp only [List.length_map, List.length_range] at h2
        exact h2
      rw [List.getElem_map, List.getElem_range]
      by_cases hsplit : i < array.length - start
      · have hsplit2 : i < (List.drop start array).length := by
          simp only [List.length_drop]
          exact hsplit
        rw [List.getElem_append_left hsplit2, List.getElem_drop]
        have hilen : start + i < array.length := by omega
        rw [Nat.mod_eq_of_lt hilen, List.getD_eq_getElem array d hilen]
      · push_neg at hsplit
        have hsplit2 : (List.drop start array).length ≤ i := by
          simp only [List.length_drop]
          exact hsplit
        rw [List.getElem_append_right hsplit2, List.getElem_take]
        have hge : array.length ≤ start + i := by omega
        have hlt : start + i - array.length < array.length := by omega
        have hmod : (start + i) % array.length = i - (array.length - start) := by
          rw [Nat.mod_eq_sub_mod hge, Nat.mod_eq_of_lt hlt]
          omega
        rw [hmod,
          List.getD_eq_getElem array d (show i - (array.length - start) < array.length by omega)]
        congr 1
        simp only [List.length_drop]

/-- The generator pointer after `n` yields is at most the array length and
congruent to `n * batch_size` modulo the array length. -/
lemma generator_state_spec {α : Type} (array : List α) (bs : ℕ)
    (hbsL : bs ≤ array.length) (n : ℕ) :
    generator_state array bs n ≤ array.length ∧
      generator_state array bs n % array.length = (n * bs) % array.length := by
  induction n with
  | zero => exact ⟨Nat.zero_le _, by simp [generator_state]⟩
  | succ n ih =>
    obtain ⟨hle, hmod⟩ := ih
    have h := generator_step_snd array bs (generator_state array bs n) hbsL hle
    refine ⟨h.1, ?_⟩
    have h2 : generator_state array bs (n + 1) % array.length =
        (generator_state array bs n + bs) % array.length := h.2
    rw [h2, Nat.add_mod, hmod, ← Nat.add_mod]
    congr 1
    ring

/-- The `n`-th batch yielded by the generator consists of the `batch_size`
elements at the cyclic positions `n * batch_size, n * batch_size + 1, ...` of
the array. -/
lemma generator_batch_eq {α : Type} (array : List α) (d : α) (bs : ℕ)
    (hbsL : bs ≤ array.length) (n : ℕ) :
    generator_batch array bs n =
      (List.range bs).map (fun j => array.getD ((n * bs + j) % array.length) d) := by
  obtain ⟨hle, hmod⟩ := generator_state_spec array bs hbsL n
  unfold generator_batch
  rw [generator_step_fst array d bs (generator_state array bs n) hbsL hle]
  have hf : (fun j => array.getD ((generator_state array bs n + j) % array.length) d)
      = fun j => array.getD ((n * bs + j) % array.length) d := by
    funext j
    congr 1
    rw [Nat.add_mod, hmod, ← Nat.add_mod]
  rw [hf]

/-- Claim C1: for every pair of density evaluators `f`, `g` and every step size
`eps > 0`, the objective built by `optimize_parameters`
(`calculate_KL_for_given_parameters`) applied to the parameter vector
`(mu, sigma)` returns `eps` times the sum over the grid points
`x_i = -25 + i * eps`, `i < ⌈50 / eps⌉`, of `f(x_i) * log(f(x_i) / g(x_i))`;
consecutive grid points are `eps` apart, every point lies in `[-25, 25)`, and
one further step reaches at least `+25`, so the evenly spaced grid covers the
fixed symmetric domain `[-25, +25]` at spacing `eps`. -/
theorem calculate_KL_is_riemann_sum (f g : ℝ → ℝ → ℝ → ℝ) (eps : ℝ)
    (heps : 0 < eps) (mu sigma : ℝ) :
    calculate_KL_for_given_parameters f g eps (mu, sigma) =
      eps * ∑ i in Finset.range ⌈(50:ℝ) / eps⌉₊,
        f (-25 + i * eps) mu sigma *
          Real.log (f (-25 + i * eps) mu sigma / g (-25 + i * eps) mu sigma) ∧
    (∀ i : ℕ, ((-25:ℝ) + (i + 1) * eps) - (-25 + i * eps) = eps) ∧
    (∀ i : ℕ, i < ⌈(50:ℝ) / eps⌉₊ →
      (-25:ℝ) ≤ -25 + i * eps ∧ (-25:ℝ) + i * eps < 25) ∧
    (25:ℝ) ≤ -25 + (⌈(50:ℝ) / eps⌉₊ : ℝ) * eps := by
  refine ⟨?_, fun i => by ring, fun i hi => ⟨?_, ?_⟩, ?_⟩
  · unfold calculate_KL_for_given_parameters arange
    rw [show (25 - (-25) : ℝ) = 50 by norm_num, List.map_map, list_range_map_sum]
    rfl
  · have h0 : (0:ℝ) ≤ (i:ℝ) * eps := mul_nonneg (Nat.cast_nonneg i) heps.le
    linarith
  · have h1 : (i:ℝ) < 50 / eps := Nat.lt_ceil.mp hi
    have h2 : (i:ℝ) * eps < 50 := (lt_div_iff₀ heps).mp h1
    linarith
  · have h1 : (50:ℝ) / eps ≤ (⌈(50:ℝ) / eps⌉₊ : ℝ) := Nat.le_ceil _
    have h2 : (50:ℝ) ≤ (⌈(50:ℝ) / eps⌉₊ : ℝ) * eps := (div_le_iff₀ heps).mp h1
    linarith

/-- Claim C1 witness: the theorem applied at `f = g = probe_f`, `eps = 1`,
`(mu, sigma) = (0, 0)`. -/
theorem calculate_KL_is_riemann_sum_witness :
    (0:ℝ) < 1 ∧
      calculate_KL_for_given_parameters probe_f probe_f 1 (0, 0) =
        1 * ∑ i in Finset.range ⌈(50:ℝ) / 1⌉₊,
          probe_f (-25 + i * 1) 0 0 *
            Real.log (probe_f (-25 + i * 1) 0 0 / probe_f (-25 + i * 1) 0 0) :=
  ⟨by norm_num, (calculate_KL_is_riemann_sum probe_f probe_f 1 (by norm_num) 0 0).1⟩

/-- Claim C2 (amended): only the parametric single-Gaussian evaluator floors its
entries at `1e-6`; the fixed mixture evaluator returns strictly positive
entries, but they are not bounded below by `1e-6`.  The log argument in the
divergence estimator is still positive when the two evaluators are the mixture
and the floored Gaussian. -/
theorem density_evaluator_floors :
    (∀ x loc scale : ℝ, 1e-6 ≤ q_distribution_pdf x loc scale) ∧
    (∀ (x : ℝ) (kwargs : List (String × ℝ)), 0 < p_distribution_pdf x kwargs) := by
  constructor
  · intro x loc scale
    exact le_max_left _ _
  · intro x kwargs
    have h := two_le_sqrt_two_pi
    unfold p_distribution_pdf normPdf
    positivity

/-- Claim C4: `optimize_parameters` makes a single call to the external bounded
minimizer, passing it the KL objective, the bounds `((None, None), (1E-2, None))`
— which leave the mean unconstrained and constrain the scale only from below by
`1e-2` — and the fixed initial guess `(mean, scale) = (0, 5)`; it returns the
`x`-slot the minimizer reports as optimal. -/
theorem optimize_parameters_single_call
    (minimize : ((ℝ × ℝ) → ℝ) → Bounds2 → (ℝ × ℝ) → OptimizeResult)
    (f g : ℝ → ℝ → ℝ → ℝ) (eps : ℝ) :
    optimize_parameters minimize f g eps =
      (minimize (calculate_KL_for_given_parameters f g eps) kl_bounds kl_x0).x ∧
    (∀ p : ℝ × ℝ, inBounds kl_bounds p ↔ 1e-2 ≤ p.2) ∧
    kl_x0 = (0, 5) := by
  refine ⟨rfl, ?_, rfl⟩
  intro p
  unfold inBounds kl_bounds
  simp [Option.mem_def]

/-- Claim C6: with the same density evaluator and identical parameters on both sides,
the divergence estimator returns exactly `0` for every step size `eps > 0`;
in particular the discrepancy from `0` is bounded by any discretization-error
bound and vanishes as `eps` shrinks. -/
theorem kl_self_consistency (f : ℝ → ℝ → ℝ → ℝ) (eps : ℝ) (heps : 0 < eps)
    (params : ℝ × ℝ) :
    calculate_KL_for_given_parameters f f eps params = 0 := by
  unfold calculate_KL_for_given_parameters
  have h : ∀ y ∈ (arange (-25) 25 eps).map (fun x =>
      f x params.1 params.2 *
        Real.log (f x params.1 params.2 / f x params.1 params.2)), y = 0 := by
    intro y hy
    simp only [List.mem_map] at hy
    obtain ⟨x, -, rfl⟩ := hy
    by_cases hfx : f x params.1 params.2 = 0
    · rw [hfx, zero_mul]
    · rw [div_self hfx, Real.log_one, mul_zero]
  rw [List.sum_eq_zero h, mul_zero]

/-- Claim C6 witness: the theorem applied at `f = probe_g`, `eps = 1`,
parameters `(3, 7)`. -/
theorem kl_self_consistency_witness :
    (0:ℝ) < 1 ∧ calculate_KL_for_given_parameters probe_g probe_g 1 (3, 7) = 0 :=
  ⟨by norm_num, kl_self_consistency probe_g 1 (by norm_num) (3, 7)⟩

/-- Claim C7 counterexample: for the density evaluators `probe_f`, `probe_g` with
parameters `(0, 0)` and step size `eps = 8`, the estimate changes by `0` under
the first halving and by `2` under the second, so the changes do not decrease
monotonically with successive halvings. -/
theorem kl_halving_counterexample :
    ¬ (|calculate_KL_for_given_parameters probe_f probe_g ((8:ℝ)/2) (0, 0) -
          calculate_KL_for_given_parameters probe_f probe_g 8 (0, 0)| ≥
        |calculate_KL_for_given_parameters probe_f probe_g ((8:ℝ)/4) (0, 0) -
          calculate_KL_for_given_parameters probe_f probe_g ((8:ℝ)/2) (0, 0)|) := by
  rw [show (8:ℝ)/2 = 4 by norm_num, show (8:ℝ)/4 = 2 by norm_num,
    probe_kl_8, probe_kl_4, probe_kl_2]
  norm_num

/-- Claim C7 (amended): the change in the estimated KL value under halving the step
size need not decrease monotonically: there exist density evaluators,
parameters and a step size `eps > 0` for which the change produced by the
second halving strictly exceeds the change produced by the first. -/
theorem kl_halving_not_monotone :
    ∃ (f g : ℝ → ℝ → ℝ → ℝ) (eps : ℝ) (params : ℝ × ℝ), 0 < eps ∧
      |calculate_KL_for_given_parameters f g (eps/2) params -
          calculate_KL_for_given_parameters f g eps params| <
        |calculate_KL_for_given_parameters f g (eps/4) params -
          calculate_KL_for_given_parameters f g (eps/2) params| := by
  refine ⟨probe_f, probe_g, 8, (0, 0), by norm_num, ?_⟩
  rw [show (8:ℝ)/2 = 4 by norm_num, show (8:ℝ)/4 = 2 by norm_num,
    probe_kl_8, probe_kl_4, probe_kl_2]
  norm_num

/-- Claim C8: the fixed mixture density ignores all passed parameters: two calls with
any two keyword-argument sets (any values, or none at all) return the same
value at every point. -/
theorem p_pdf_ignores_kwargs (x : ℝ) (k1 k2 : List (String × ℝ)) :
    p_distribution_pdf x k1 = p_distribution_pdf x k2 := rfl

/-- Claim C9: for an array whose first axis has length `L ≥ 1` and any `batch_size`
with `1 ≤ batch_size ≤ L`, every batch yielded by `data_generator` has exactly
`batch_size` elements, and the concatenation of the first `n` batches is the
cyclic in-order enumeration of the array (element `k` of the concatenation is
the array entry at index `k mod L`). -/
theorem data_generator_batches_cyclic {α : Type} (array : List α) (d : α)
    (bs : ℕ) (hbs1 : 1 ≤ bs) (hbsL : bs ≤ array.length) (n : ℕ) :
    (generator_batch array bs n).length = bs ∧
    ((List.range n).map (generator_batch array bs)).flatten =
      (List.range (n * bs)).map (fun k => array.getD (k % array.length) d) := by
  constructor
  · rw [generator_batch_eq array d bs hbsL n]
    simp
  · induction n with
    | zero => simp
    | succ m ih =>
      rw [List.range_succ, List.map_append, List.flatten_append, ih,
        show (m + 1) * bs = m * bs + bs by ring, List.range_add, List.map_append]
      congr 1
      simp only [List.map_cons, List.map_nil, List.flatten_cons, List.flatten_nil,
        List.append_nil, List.map_map]
      rw [generator_batch_eq array d bs hbsL m]
      rfl

/-- Claim C9 witness: the theorem applied to the three-element array `[10, 20, 30]`
with `batch_size = 2` after `4` yields. -/
theorem data_generator_batches_cyclic_witness :
    1 ≤ 2 ∧ 2 ≤ ([10, 20, 30] : List ℕ).length ∧
      (generator_batch ([10, 20, 30] : List ℕ) 2 4).length = 2 :=
  ⟨by decide, by decide,
    (data_generator_batches_cyclic ([10, 20, 30] : List ℕ) 0 2 (by decide) (by decide) 4).1⟩

/-- Claim C10: for `N ≠ 0`, `tau > 0` and a non-empty data batch, the natural gradient
returned by `calculate_gradient` is the diagonal inverse-Fisher scaling
`diag(1/tau, 2 tau^2)` applied componentwise to `len(data)/N` times the
Euclidean gradient. -/
theorem natural_vs_euclidean_gradient (N : ℝ) (data : List ℝ) (mu tau : ℝ)
    (hN : N ≠ 0) (htau : 0 < tau) (hdata : data ≠ []) :
    (calculate_gradient N data mu tau).1.1 =
      (1 / tau) * (((data.length : ℝ) / N) * (calculate_gradient N data mu tau).2.1) ∧
    (calculate_gradient N data mu tau).1.2 =
      (2 * tau ^ 2) * (((data.length : ℝ) / N) * (calculate_gradient N data mu tau).2.2) := by
  have hlen : (data.length : ℝ) ≠ 0 := by
    have hpos : 0 < data.length := List.length_pos.mpr hdata
    exact_mod_cast hpos.ne'
  simp only [calculate_gradient]
  constructor
  · field_simp
    ring
  · field_simp
    ring

/-- Claim C10 witness: the theorem applied at `N = 1`, `data = [0]`, `mu = 0`,
`tau = 1`. -/
theorem natural_vs_euclidean_gradient_witness :
    (1:ℝ) ≠ 0 ∧ (0:ℝ) < 1 ∧ ([(0:ℝ)] ≠ ([] : List ℝ)) ∧
      (calculate_gradient 1 [(0:ℝ)] 0 1).1.1 =
        (1 / 1) * (((([(0:ℝ)] : List ℝ).length : ℝ) / 1) *
          (calculate_gradient 1 [(0:ℝ)] 0 1).2.1) :=
  ⟨by norm_num, by norm_num, by simp,
    (natural_vs_euclidean_gradient 1 [(0:ℝ)] 0 1 (by norm_num) (by norm_num) (by simp)).1⟩

end AlmeriaVB
